import Mathlib

/-!
# Verification of the fpsKbdTrainer statistics and round-selection engine

A shallow embedding of `src/fpsKbdTrainer.js`.  JavaScript numbers that hold
millisecond counts and counters are modelled as `Nat`; JavaScript arithmetic
that performs division (averages, accuracy percentages, key weights) is
modelled over `ℚ`.  `null` becomes `none`.  The mutable module-scope state
(`stats`, `round`, `currentKey`, `promptTime`, `reactionTimes`, `resultsLog`)
becomes an explicit `GameState` threaded through the event handlers.
-/

namespace FpsTrainer

/-- `const keys = ['q','e','r','t','f','g','c','x','z']` (line 31): the fixed
canonical ordered list of tracked keys. -/
def keys : List Char := ['q', 'e', 'r', 't', 'f', 'g', 'c', 'x', 'z']

/-- One per-key statistics record, as stored in `stats[key]` (line 34):
`{ attempts, successes, totalTime, errors, bestTime, worstTime }` with the
two extreme times nullable. -/
structure KeyStat where
  attempts : Nat
  successes : Nat
  totalTime : Nat
  errors : Nat
  bestTime : Option Nat
  worstTime : Option Nat
  deriving Repr, DecidableEq

/-- The zeroed record a fresh key starts from (line 34). -/
def zeroStat : KeyStat :=
  { attempts := 0, successes := 0, totalTime := 0, errors := 0
    bestTime := none, worstTime := none }

/-- The persistent store: `stats.meta.gamesPlayed` plus one `KeyStat` per
key.  `perKey` is total on `Char`; only the nine members of `keys` are ever
read or written by the program. -/
structure StatsStore where
  gamesPlayed : Nat
  perKey : Char → KeyStat

/-- The all-zero default store: `gamesPlayed = 0`, every key zeroed
(lines 26-39 when nothing was persisted). -/
def freshStats : StatsStore := ⟨0, fun _ => zeroStat⟩

/-- JavaScript's `x.toFixed(1)` on a nonnegative number: round to one
decimal place, ties away from zero (here: upward). -/
def toFixed1 (q : ℚ) : ℚ := ((round (q * 10) : ℤ) : ℚ) / 10

/-- The `totalAttempts` accumulator of `getOverallAccuracy` (lines 80-85). -/
def sumAttempts (st : StatsStore) : Nat :=
  (keys.map (fun k => (st.perKey k).attempts)).sum

/-- The `totalSuccesses` accumulator of `getOverallAccuracy` (lines 81-85). -/
def sumSuccesses (st : StatsStore) : Nat :=
  (keys.map (fun k => (st.perKey k).successes)).sum

/-- `getOverallAccuracy` (lines 79-87):
`totalAttempts > 0 ? ((totalSuccesses / totalAttempts) * 100).toFixed(1) : "N/A"`.
The `"N/A"` branch is modelled as `none`. -/
def getOverallAccuracy (st : StatsStore) : Option ℚ :=
  if 0 < sumAttempts st then
    some (toFixed1 ((sumSuccesses st : ℚ) / (sumAttempts st : ℚ) * 100))
  else none

/-- `getRollingAvg` (lines 89-93) as a function of the `reactionTimes`
array: `"N/A"` (here `none`) when empty, else `(sum / length).toFixed(1)`. -/
def getRollingAvg (rts : List Nat) : Option ℚ :=
  if rts.length = 0 then none
  else some (toFixed1 ((rts.sum : ℚ) / (rts.length : ℚ)))

/-- `getKeyWeight` (lines 224-229):
`avgTime = successes > 0 ? totalTime / successes : 500`;
`return avgTime + errors * 100 + 100`. -/
def getKeyWeight (st : StatsStore) (key : Char) : ℚ :=
  let s := st.perKey key
  let avgTime : ℚ := if 0 < s.successes then (s.totalTime : ℚ) / (s.successes : ℚ) else 500
  let errorPenalty : ℚ := (s.errors : ℚ) * 100
  avgTime + errorPenalty + 100

/-- The subtraction walk of `chooseNextKey` (lines 235-239): subtract each
key's weight from the running remainder, return the first key at which the
remainder is `≤ 0`; falling off the end returns `keys[keys.length - 1]`
(line 239). -/
def chooseGo (st : StatsStore) : List Char → ℚ → Char
  | [], _ => keys.getLastD ' '
  | k :: rest, r =>
    let r2 := r - getKeyWeight st k
    if r2 ≤ 0 then k else chooseGo st rest r2

/-- `chooseNextKey` (lines 231-240) with the draw `rnd = Math.random() * totalWeight`
passed in explicitly as `r`. -/
def chooseNextKey (st : StatsStore) (r : ℚ) : Char :=
  chooseGo st keys r

/-- Sum of the weights of the first `n` keys in canonical order
(`weights[0] + ... + weights[n-1]`). -/
def wsum (st : StatsStore) (n : Nat) : ℚ :=
  ((keys.take n).map (getKeyWeight st)).sum

/-- The content of one `resultsLog` entry (lines 281, 284): the formatted
message records the round number, whether the press was correct, the
prompted key, the pressed character and the reaction time. -/
structure LogEntry where
  round : Nat
  correct : Bool
  target : Char
  pressed : Char
  timeMs : Nat
  deriving Repr, DecidableEq

/-- The mutable module-scope game state (lines 18, 42-46): the stats store,
`round`, `currentKey` (null while no key is prompted), `promptTime`,
the rolling `reactionTimes` array and the `resultsLog`.  `promptTime` is 0
initially (JavaScript `null`, only ever read after `nextRound` set it). -/
structure GameState where
  stats : StatsStore
  round : Nat
  currentKey : Option Char
  promptTime : Nat
  reactionTimes : List Nat
  resultsLog : List LogEntry

/-- State at program start for a fresh stats file: all-zero stats,
`round = 0`, no key prompted, empty rolling window and log. -/
def initGame : GameState :=
  { stats := freshStats, round := 0, currentKey := none, promptTime := 0
    reactionTimes := [], resultsLog := [] }

/-- Write one key's record into the store (the mutation `stats[key] = s`). -/
def updateKey (st : StatsStore) (key : Char) (s : KeyStat) : StatsStore :=
  { st with perKey := fun k => if k = key then s else st.perKey k }

/-- The best-time update (lines 273-275):
`if (bestTime === null || reactionTime < bestTime) bestTime = reactionTime`. -/
def updMin (o : Option Nat) (t : Nat) : Option Nat :=
  match o with
  | none => some t
  | some b => if t < b then some t else some b

/-- The worst-time update (lines 276-278):
`if (worstTime === null || reactionTime > worstTime) worstTime = reactionTime`. -/
def updMax (o : Option Nat) (t : Nat) : Option Nat :=
  match o with
  | none => some t
  | some w => if t > w then some t else some w

/-- The `keypress` handler (lines 256-292) for a non-interrupt character
`str` arriving at wall-clock time `now` (the Ctrl+C branch, lines 257-262,
exits the process and is not part of this step function).
`if (!currentKey) return;` then `reactionTime = Date.now() - promptTime`,
increment `attempts`, and on a correct press update `successes`,
`totalTime`, `bestTime`, `worstTime` and the rolling window (push, shift
beyond 4), otherwise increment `errors`; append the result message, clear
`currentKey`.  (`saveStats()` and `renderUI()` do not change this state.) -/
def onKeyPress (g : GameState) (str : Char) (now : Nat) : GameState :=
  match g.currentKey with
  | none => g
  | some ck =>
    let reactionTime := now - g.promptTime
    let s0 := g.stats.perKey ck
    if str = ck then
      let s1 : KeyStat :=
        { attempts := s0.attempts + 1
          successes := s0.successes + 1
          totalTime := s0.totalTime + reactionTime
          errors := s0.errors
          bestTime := updMin s0.bestTime reactionTime
          worstTime := updMax s0.worstTime reactionTime }
      let pushed := g.reactionTimes ++ [reactionTime]
      { g with
          stats := updateKey g.stats ck s1
          reactionTimes := if 4 < pushed.length then pushed.tail else pushed
          resultsLog := g.resultsLog ++
            [{ round := g.round, correct := true, target := ck
               pressed := str, timeMs := reactionTime }]
          currentKey := none }
    else
      let s1 : KeyStat := { s0 with attempts := s0.attempts + 1, errors := s0.errors + 1 }
      { g with
          stats := updateKey g.stats ck s1
          resultsLog := g.resultsLog ++
            [{ round := g.round, correct := false, target := ck
               pressed := str, timeMs := reactionTime }]
          currentKey := none }

/-- `nextRound` (lines 243-248) with the key chosen by `chooseNextKey` and
the timestamp `Date.now()` passed in: `round++`, prompt `chosen`, record
the prompt time. -/
def nextRound (g : GameState) (chosen : Char) (now : Nat) : GameState :=
  { g with round := g.round + 1, currentKey := some chosen, promptTime := now }

/-- One full scored round driven from outside: prompt `chosen` at time 0
and feed the handler the character `pressed` at time `rt` (so the measured
reaction time is `rt`). -/
def scoredPress (g : GameState) (p : Char × Char × Nat) : GameState :=
  onKeyPress (nextRound g p.1 0) p.2.1 p.2.2

/-- Run a whole sequence of scored rounds, each given as
`(promptedKey, pressedChar, reactionMs)`. -/
def runPresses (g : GameState) (ps : List (Char × Char × Nat)) : GameState :=
  ps.foldl scoredPress g

/-- The reaction times of the correct presses of key `k` in a driven
sequence: rounds where `k` was prompted and `k` itself was pressed. -/
def correctTimes (k : Char) (ps : List (Char × Char × Nat)) : List Nat :=
  (ps.filter (fun p => p.1 = k ∧ p.2.1 = k)).map (fun p => p.2.2)

/-! ## Persistence (lines 15-39 and 216-222)

`saveStats` writes `JSON.stringify(stats)`; startup reads the file back with
`JSON.parse` and patches missing pieces.  `JSON.stringify`/`JSON.parse` are
lossless on the trees the program writes (objects, small integers, `null`),
so persistence is modelled at the level of the JSON tree itself: `saveStats`
produces a `Json` value and the startup code consumes `Option Json`, where
`none` stands for a missing stats file or a `JSON.parse` failure (both leave
`stats = {}`, lines 18-25, and the program keeps running). -/

/-- A JSON value as the program persists it: nonnegative integers, `null`,
and string-keyed objects. -/
inductive Json where
  | num (n : Nat)
  | null
  | obj (fields : List (String × Json))
  deriving Repr

/-- Encode a nullable time field (`bestTime` / `worstTime`). -/
def encodeOpt : Option Nat → Json
  | none => .null
  | some n => .num n

/-- The six fields `JSON.stringify` writes for one key's record. -/
def encodeKeyStatFields (s : KeyStat) : List (String × Json) :=
  [("attempts", .num s.attempts), ("successes", .num s.successes),
   ("totalTime", .num s.totalTime), ("errors", .num s.errors),
   ("bestTime", encodeOpt s.bestTime), ("worstTime", encodeOpt s.worstTime)]

/-- `saveStats` (lines 216-222) as the JSON tree it writes: a `meta` object
with `gamesPlayed` plus one object per tracked key, in canonical order.
(The write failure branch only logs and changes no state.) -/
def saveStats (st : StatsStore) : Json :=
  .obj (("meta", .obj [("gamesPlayed", .num st.gamesPlayed)]) ::
    keys.map (fun k => (String.mk [k], Json.obj (encodeKeyStatFields (st.perKey k)))))

/-- Read one numeric counter field out of a parsed key record; an absent or
non-numeric field is modelled as 0. -/
def natField (fs : List (String × Json)) (name : String) : Nat :=
  match fs.lookup name with
  | some (.num n) => n
  | _ => 0

/-- Read one nullable time field out of a parsed key record.  A persisted
`null` stays `null`; an absent field is patched to `null` by the startup
code (`if (stats[key].bestTime === undefined) stats[key].bestTime = null`,
lines 36-37). -/
def optField (fs : List (String × Json)) (name : String) : Option Nat :=
  match fs.lookup name with
  | some (.num n) => some n
  | _ => none

/-- One key's record out of a parsed key object. -/
def parseKeyStat (fs : List (String × Json)) : KeyStat :=
  { attempts := natField fs "attempts", successes := natField fs "successes"
    totalTime := natField fs "totalTime", errors := natField fs "errors"
    bestTime := optField fs "bestTime", worstTime := optField fs "worstTime" }

/-- The startup loading code (lines 18-39): parse the persisted file
(`none` = missing file or parse error, leaving `stats = {}`), default
`meta` to `{gamesPlayed: 0}` when absent, and give every tracked key a
zeroed record when absent (`if (!stats[key]) stats[key] = {...}`).
Untracked characters are not persisted and read as the zeroed record. -/
def loadStats (parsed : Option Json) : StatsStore :=
  let fields : List (String × Json) :=
    match parsed with
    | some (.obj fs) => fs
    | _ => []
  let gp : Nat :=
    match fields.lookup "meta" with
    | some (.obj ms) => natField ms "gamesPlayed"
    | _ => 0
  { gamesPlayed := gp
    perKey := fun k =>
      if k ∈ keys then
        match fields.lookup (String.mk [k]) with
        | some (.obj fs) => parseKeyStat fs
        | _ => zeroStat
      else zeroStat }

/-! ## ANSI-aware rendering helpers (lines 60-76)

A styled terminal string is modelled as a list of tokens: printable
characters and ANSI style escape sequences (`ESC [ params m`, carrying
their parameter text).  The regex `\x1B\[[0-9;]*m` of `stripAnsi` removes
exactly the escape tokens, and the leading-prefix regex of
`truncateAnsiPreserve` captures exactly the maximal leading run of escape
tokens, so both functions are faithfully expressed on token lists. -/

/-- One token of a styled string: a printable character or one ANSI style
escape sequence. -/
inductive Tok where
  | ch (c : Char)
  | esc (params : String)
  deriving Repr, DecidableEq

/-- Whether a token is an ANSI escape sequence. -/
def Tok.isEsc : Tok → Bool
  | .ch _ => false
  | .esc _ => true

/-- `stripAnsi` (lines 61-63): drop every style escape, keeping the
printable characters. -/
def stripAnsi (s : List Tok) : List Char :=
  s.filterMap (fun t => match t with | .ch c => some c | .esc _ => none)

/-- `truncateAnsiPreserve(str, width)` (lines 70-76): if the printable
content fits in `width` columns return the string unchanged; otherwise keep
the maximal leading run of style escapes, the first `width - 1` printable
characters, and a single ellipsis character.  (`width ≥ 1`, as the renderer
always passes a positive column budget.) -/
def truncateAnsiPreserve (s : List Tok) (width : Nat) : List Tok :=
  let plain := stripAnsi s
  if plain.length ≤ width then s
  else
    let lead := s.takeWhile Tok.isEsc
    lead ++ (plain.take (width - 1)).map Tok.ch ++ [Tok.ch '…']

/-! ## Theorems -/

/-- C1: for every `StatsStore` state, `getOverallAccuracy` returns
`100 * Σsuccesses / Σattempts` (over all tracked keys) rounded to one
decimal place, and returns `"N/A"` (modelled `none`) iff `Σattempts = 0`. -/
theorem overallAccuracy_spec (st : StatsStore) :
    getOverallAccuracy st =
      (if sumAttempts st = 0 then none
       else some (toFixed1 (100 * (sumSuccesses st : ℚ) / (sumAttempts st : ℚ)))) ∧
    (getOverallAccuracy st = none ↔ sumAttempts st = 0) := by
  have hmain : getOverallAccuracy st =
      (if sumAttempts st = 0 then none
       else some (toFixed1 (100 * (sumSuccesses st : ℚ) / (sumAttempts st : ℚ)))) := by
    by_cases h : sumAttempts st = 0
    · simp [getOverallAccuracy, h]
    · have h' : 0 < sumAttempts st := Nat.pos_of_ne_zero h
      simp only [getOverallAccuracy, if_pos h', if_neg h, Option.some.injEq]
      congr 1
      ring
  refine ⟨hmain, ?_⟩
  rw [hmain]
  by_cases h : sumAttempts st = 0 <;> simp [h]

/-- A sample store: 3 successes out of 4 attempts on key `q`, nothing
else. -/
def accStore : StatsStore :=
  ⟨0, fun k => if k = 'q' then ⟨4, 3, 0, 0, none, none⟩ else zeroStat⟩

/-- Concrete instance of C1: `accStore` reports an overall accuracy of
75.0. -/
theorem overallAccuracy_spec_witness : getOverallAccuracy accStore = some 75 := by
  have h := (overallAccuracy_spec accStore).1
  have ha : sumAttempts accStore = 4 := by decide
  have hs : sumSuccesses accStore = 3 := by decide
  rw [h, ha, hs]
  norm_num [toFixed1, round_eq]

/-- C2: while no key is prompted (`currentKey = null`), the keypress
handler is a no-op for any non-interrupt character: the whole game state —
stats, meta, rolling window, log, round state — is unchanged. -/
theorem onKeyPress_idle_noop (g : GameState) (str : Char) (now : Nat)
    (h : g.currentKey = none) : onKeyPress g str now = g := by
  unfold onKeyPress
  rw [h]

/-- Concrete instance of C2: a keypress in the initial (idle) state changes
nothing. -/
theorem onKeyPress_idle_noop_witness : onKeyPress initGame 'q' 5 = initGame :=
  onKeyPress_idle_noop initGame 'q' 5 rfl

/-- The average reaction time exactly as the spec words it:
`totalTimeMs / successes` when `successes > 0`, else the neutral 500. -/
def avgReactionTimeSpec (s : KeyStat) : ℚ :=
  if 0 < s.successes then (s.totalTime : ℚ) / (s.successes : ℚ) else 500

/-- The key weight exactly as the spec words it:
`avgReactionTime + errors * 100 + 100`. -/
def weightSpec (s : KeyStat) : ℚ :=
  avgReactionTimeSpec s + (s.errors : ℚ) * 100 + 100

/-- C3: `getKeyWeight` equals `avgReactionTime(key) + errors(key)*100 + 100`
with the 500 neutral default, and a key with 0 successes and 0 errors
weighs 600. -/
theorem getKeyWeight_spec (st : StatsStore) (key : Char) :
    getKeyWeight st key = weightSpec (st.perKey key) ∧
    ((st.perKey key).successes = 0 → (st.perKey key).errors = 0 →
      getKeyWeight st key = 600) := by
  refine ⟨rfl, fun h1 h2 => ?_⟩
  simp [getKeyWeight, h1, h2]
  norm_num

/-- Concrete instance of C3: in the all-zero store every key weighs 600. -/
theorem getKeyWeight_spec_witness : getKeyWeight freshStats 'q' = 600 :=
  (getKeyWeight_spec freshStats 'q').2 rfl rfl

lemma onKeyPress_none (g : GameState) (str : Char) (now : Nat)
    (h : g.currentKey = none) : onKeyPress g str now = g := by
  unfold onKeyPress
  rw [h]

lemma onKeyPress_reactionTimes_correct (g : GameState) (ck : Char) (now : Nat)
    (h : g.currentKey = some ck) :
    (onKeyPress g ck now).reactionTimes =
      (if 4 < (g.reactionTimes ++ [now - g.promptTime]).length
       then (g.reactionTimes ++ [now - g.promptTime]).tail
       else g.reactionTimes ++ [now - g.promptTime]) := by
  simp [onKeyPress, h]

lemma onKeyPress_reactionTimes_wrong (g : GameState) (ck c : Char) (now : Nat)
    (h : g.currentKey = some ck) (hne : c ≠ ck) :
    (onKeyPress g c now).reactionTimes = g.reactionTimes := by
  simp [onKeyPress, h, hne]

/-- C5: scoring an incorrect press charges the prompted key — its
`attempts` and `errors` each grow by 1, its `successes`, `totalTime`,
`bestTime` and `worstTime` are untouched — and no other key's record (in
particular not the record of the character actually pressed) changes. -/
theorem wrongPress_spec (g : GameState) (ck c : Char) (now : Nat)
    (hck : g.currentKey = some ck) (hne : c ≠ ck) :
    ((onKeyPress g c now).stats.perKey ck).attempts = (g.stats.perKey ck).attempts + 1 ∧
    ((onKeyPress g c now).stats.perKey ck).errors = (g.stats.perKey ck).errors + 1 ∧
    ((onKeyPress g c now).stats.perKey ck).successes = (g.stats.perKey ck).successes ∧
    ((onKeyPress g c now).stats.perKey ck).totalTime = (g.stats.perKey ck).totalTime ∧
    ((onKeyPress g c now).stats.perKey ck).bestTime = (g.stats.perKey ck).bestTime ∧
    ((onKeyPress g c now).stats.perKey ck).worstTime = (g.stats.perKey ck).worstTime ∧
    (∀ k, k ≠ ck → (onKeyPress g c now).stats.perKey k = g.stats.perKey k) := by
  simp only [onKeyPress, hck, if_neg hne, updateKey]
  refine ⟨by simp, by simp, by simp, by simp, by simp, by simp, fun k hk => by simp [hk]⟩

/-- Concrete instance of C5: pressing `e` while `q` is prompted in the
fresh game. -/
theorem wrongPress_spec_witness :
    ((onKeyPress (nextRound initGame 'q' 0) 'e' 50).stats.perKey 'q').attempts =
      ((nextRound initGame 'q' 0).stats.perKey 'q').attempts + 1 ∧
    ((onKeyPress (nextRound initGame 'q' 0) 'e' 50).stats.perKey 'q').errors =
      ((nextRound initGame 'q' 0).stats.perKey 'q').errors + 1 ∧
    ((onKeyPress (nextRound initGame 'q' 0) 'e' 50).stats.perKey 'q').successes =
      ((nextRound initGame 'q' 0).stats.perKey 'q').successes ∧
    ((onKeyPress (nextRound initGame 'q' 0) 'e' 50).stats.perKey 'q').totalTime =
      ((nextRound initGame 'q' 0).stats.perKey 'q').totalTime ∧
    ((onKeyPress (nextRound initGame 'q' 0) 'e' 50).stats.perKey 'q').bestTime =
      ((nextRound initGame 'q' 0).stats.perKey 'q').bestTime ∧
    ((onKeyPress (nextRound initGame 'q' 0) 'e' 50).stats.perKey 'q').worstTime =
      ((nextRound initGame 'q' 0).stats.perKey 'q').worstTime ∧
    (∀ k, k ≠ 'q' →
      (onKeyPress (nextRound initGame 'q' 0) 'e' 50).stats.perKey k =
        (nextRound initGame 'q' 0).stats.perKey k) :=
  wrongPress_spec (nextRound initGame 'q' 0) 'q' 'e' 50 rfl (by decide)

/-- The five-round drive of the spec's rolling-window example. -/
def fiveHits : List (Char × Char × Nat) :=
  [('q', 'q', 100), ('e', 'e', 200), ('r', 'r', 300), ('t', 't', 400), ('f', 'f', 500)]

/-- C6: the rolling window never grows beyond 4 entries; at capacity a
correct press evicts the oldest entry and appends the new reaction time
(FIFO); and after the five successful presses `[100,200,300,400,500]` the
window is exactly `[200,300,400,500]` with rolling average 350. -/
theorem rollingWindow_spec :
    (∀ (g : GameState) (c : Char) (t : Nat), g.reactionTimes.length ≤ 4 →
      (onKeyPress g c t).reactionTimes.length ≤ 4) ∧
    (∀ (g : GameState) (ck : Char) (t : Nat), g.currentKey = some ck →
      g.reactionTimes.length = 4 →
      (onKeyPress g ck t).reactionTimes = g.reactionTimes.tail ++ [t - g.promptTime]) ∧
    (runPresses initGame fiveHits).reactionTimes = [200, 300, 400, 500] ∧
    getRollingAvg (runPresses initGame fiveHits).reactionTimes = some 350 := by
  refine ⟨?_, ?_, ?_, ?_⟩
  · intro g c t h
    cases hck : g.currentKey with
    | none => rw [onKeyPress_none g c t hck]; exact h
    | some ck =>
      by_cases hc : c = ck
      · subst hc
        rw [onKeyPress_reactionTimes_correct g c t hck]
        by_cases h4 : 4 < (g.reactionTimes ++ [t - g.promptTime]).length

        · rw [if_pos h4]
          simp only [List.length_tail, List.length_append, List.length_singleton]
          omega
        · rw [if_neg h4]
          simp only [List.length_append, List.length_singleton] at h4 ⊢
          omega
      · rw [onKeyPress_reactionTimes_wrong g ck c t hck hc]; exact h
  · intro g ck t hck h4
    rw [onKeyPress_reactionTimes_correct g ck t hck]
    have hlen : (g.reactionTimes ++ [t - g.promptTime]).length = 5 := by
      simp [h4]
    rw [if_pos (by omega)]
    cases hl : g.reactionTimes with
    | nil => rw [hl] at h4; simp at h4
    | cons a as => simp
  · decide
  · have h : (runPresses initGame fiveHits).reactionTimes = [200, 300, 400, 500] := by decide
    rw [h]
    norm_num [getRollingAvg, toFixed1, round_eq]

/-- Concrete instance of C6's capacity bound: a press from the initial
state keeps the window within 4 entries. -/
theorem rollingWindow_spec_witness :
    (onKeyPress initGame 'q' 5).reactionTimes.length ≤ 4 :=
  rollingWindow_spec.1 initGame 'q' 5 (by decide)

lemma getKeyWeight_pos (st : StatsStore) (k : Char) : 0 < getKeyWeight st k := by
  unfold getKeyWeight
  by_cases h : 0 < (st.perKey k).successes <;> simp only [h, if_pos, if_neg] <;> positivity

lemma weightsum_nonneg (st : StatsStore) (ks : List Char) :
    0 ≤ (ks.map (getKeyWeight st)).sum := by
  induction ks with
  | nil => simp
  | cons k rest ih =>
    simp only [List.map_cons, List.sum_cons]
    have := getKeyWeight_pos st k
    linarith

lemma chooseGo_mem_or_fallback (st : StatsStore) :
    ∀ (ks : List Char) (r : ℚ),
      chooseGo st ks r ∈ ks ∨ chooseGo st ks r = keys.getLastD ' '
  | [], _ => Or.inr rfl
  | k :: rest, r => by
    unfold chooseGo
    by_cases h : r - getKeyWeight st k ≤ 0
    · simp [h]
    · simp only [if_neg h]
      rcases chooseGo_mem_or_fallback st rest (r - getKeyWeight st k) with h2 | h2
      · exact Or.inl (List.mem_cons_of_mem k h2)
      · exact Or.inr h2

lemma chooseGo_fallback (st : StatsStore) :
    ∀ (ks : List Char) (r : ℚ), (ks.map (getKeyWeight st)).sum < r →
      chooseGo st ks r = keys.getLastD ' '
  | [], _, _ => rfl
  | k :: rest, r, h => by
    simp only [List.map_cons, List.sum_cons] at h
    have hrest : (rest.map (getKeyWeight st)).sum < r - getKeyWeight st k := by linarith
    have hpos : ¬ r - getKeyWeight st k ≤ 0 := by
      have := weightsum_nonneg st rest
      linarith
    unfold chooseGo
    rw [if_neg hpos]
    exact chooseGo_fallback st rest (r - getKeyWeight st k) hrest

/-- The walk of `chooseGo` on any key list: it stops at the first index
whose weight prefix sum reaches the draw. -/
lemma chooseGo_walk (st : StatsStore) :
    ∀ (ks : List Char) (r : ℚ), ks ≠ [] →
      r ≤ (ks.map (getKeyWeight st)).sum →
      ∃ i : Fin ks.length, chooseGo st ks r = ks.get i ∧
        r ≤ (((ks.take (i.val + 1)).map (getKeyWeight st)).sum) ∧
        ∀ j < i.val, (((ks.take (j + 1)).map (getKeyWeight st)).sum) < r
  | [], _, hne, _ => absurd rfl hne
  | k :: rest, r, _, hr => by
    by_cases h : r - getKeyWeight st k ≤ 0
    · refine ⟨⟨0, by simp⟩, ?_, ?_, ?_⟩
      · unfold chooseGo; rw [if_pos h]; rfl
      · simpa using by linarith
      · intro j hj
        have hj0 : j < 0 := hj
        exact absurd hj0 (Nat.not_lt_zero j)
    · have hklt : getKeyWeight st k < r := by
        by_contra hle
        exact h (by push_neg at hle; linarith)
      have hrest_ne : rest ≠ [] := by
        rintro rfl
        simp only [List.map_cons, List.map_nil, List.sum_cons, List.sum_nil, add_zero] at hr
        linarith
      have hr' : r - getKeyWeight st k ≤ (rest.map (getKeyWeight st)).sum := by
        simp only [List.map_cons, List.sum_cons] at hr
        linarith
      obtain ⟨i', hget, hup, hlow⟩ := chooseGo_walk st rest (r - getKeyWeight st k) hrest_ne hr'
      refine ⟨⟨i'.val + 1, by simp only [List.length_cons]; exact Nat.succ_lt_succ i'.isLt⟩,
        ?_, ?_, ?_⟩
      · unfold chooseGo
        rw [if_neg h]
        simpa using hget
      · simp only [List.take_succ_cons, List.map_cons, List.sum_cons]
        linarith
      · intro j hj
        have hj1 : j < i'.val + 1 := hj
        match j with
        | 0 =>
          simpa using hklt
        | j' + 1 =>
          have hj' : j' < i'.val := by omega
          have := hlow j' hj'
          simp only [List.take_succ_cons, List.map_cons, List.sum_cons]
          linarith

/-- C4: for a draw `r ∈ [0, Σweights)`, `chooseNextKey` returns `keys[i]`
for the minimal `i` whose weight prefix sum reaches `r` — i.e. the first
key at which the walk's running remainder drops to `≤ 0` — which is the
weighted sampling that biases selection toward heavier keys. -/
theorem chooseNextKey_walk_spec (st : StatsStore) (r : ℚ)
    (_h0 : 0 ≤ r) (hlt : r < wsum st keys.length) :
    ∃ i : Fin keys.length, chooseNextKey st r = keys.get i ∧
      r ≤ wsum st (i.val + 1) ∧ ∀ j < i.val, wsum st (j + 1) < r := by
  have htot : wsum st keys.length = (keys.map (getKeyWeight st)).sum := by
    rw [wsum, List.take_length]
  obtain ⟨i, hget, hup, hlow⟩ :=
    chooseGo_walk st keys r (by decide) (by rw [← htot]; exact le_of_lt hlt)
  exact ⟨i, hget, hup, hlow⟩

lemma wsum_fresh : wsum freshStats keys.length = 5400 := by
  simp [wsum, keys, getKeyWeight, freshStats, zeroStat]
  norm_num

/-- Concrete instance of C4: the draw 0 in the all-zero store selects the
first key (`q`), whose prefix sum 600 already covers the draw. -/
theorem chooseNextKey_walk_spec_witness :
    ∃ i : Fin keys.length, chooseNextKey freshStats 0 = keys.get i ∧
      (0 : ℚ) ≤ wsum freshStats (i.val + 1) ∧ ∀ j < i.val, wsum freshStats (j + 1) < 0 :=
  chooseNextKey_walk_spec freshStats 0 le_rfl (by rw [wsum_fresh]; norm_num)

/-- C10: whatever the draw — even at or beyond the upper edge where the
remainder never reaches `≤ 0` — `chooseNextKey` returns a member of the
fixed key list, and past the total weight it falls back to the last key
`z` in canonical order; it never produces a value outside the key set. -/
theorem chooseNextKey_total_spec (st : StatsStore) (r : ℚ) :
    chooseNextKey st r ∈ keys ∧
    (wsum st keys.length < r → chooseNextKey st r = 'z') := by
  constructor
  · rcases chooseGo_mem_or_fallback st keys r with h | h
    · exact h
    · rw [chooseNextKey, h]; decide
  · intro hgt
    have htot : wsum st keys.length = (keys.map (getKeyWeight st)).sum := by
      rw [wsum, List.take_length]
    rw [htot] at hgt
    rw [chooseNextKey, chooseGo_fallback st keys r hgt]
    decide

/-- Concrete instance of C10: a draw beyond the total weight of the
all-zero store (9 × 600 = 5400) falls back to `z`. -/
theorem chooseNextKey_total_spec_witness : chooseNextKey freshStats 5401 = 'z' :=
  (chooseNextKey_total_spec freshStats 5401).2 (by rw [wsum_fresh]; norm_num)

lemma scoredPress_perKey_other (g : GameState) (p : Char × Char × Nat) (k : Char)
    (hk : p.1 ≠ k) : (scoredPress g p).stats.perKey k = g.stats.perKey k := by
  obtain ⟨c, pr, t⟩ := p
  have hkc : k ≠ c := fun h => hk h.symm
  by_cases hc : pr = c <;>
    simp [scoredPress, onKeyPress, nextRound, updateKey, hc, hkc]

lemma scoredPress_best_correct (g : GameState) (k : Char) (t : Nat) :
    ((scoredPress g (k, k, t)).stats.perKey k).bestTime =
      updMin ((g.stats.perKey k).bestTime) t := by
  simp [scoredPress, onKeyPress, nextRound, updateKey]

lemma scoredPress_worst_correct (g : GameState) (k : Char) (t : Nat) :
    ((scoredPress g (k, k, t)).stats.perKey k).worstTime =
      updMax ((g.stats.perKey k).worstTime) t := by
  simp [scoredPress, onKeyPress, nextRound, updateKey]

lemma scoredPress_best_wrong (g : GameState) (k pr : Char) (t : Nat) (hpr : pr ≠ k) :
    ((scoredPress g (k, pr, t)).stats.perKey k).bestTime =
      (g.stats.perKey k).bestTime := by
  simp [scoredPress, onKeyPress, nextRound, updateKey, hpr]

lemma scoredPress_worst_wrong (g : GameState) (k pr : Char) (t : Nat) (hpr : pr ≠ k) :
    ((scoredPress g (k, pr, t)).stats.perKey k).worstTime =
      (g.stats.perKey k).worstTime := by
  simp [scoredPress, onKeyPress, nextRound, updateKey, hpr]

lemma correctTimes_cons (k : Char) (p : Char × Char × Nat)
    (ps : List (Char × Char × Nat)) :
    correctTimes k (p :: ps) =
      if p.1 = k ∧ p.2.1 = k then p.2.2 :: correctTimes k ps
      else correctTimes k ps := by
  by_cases h : p.1 = k ∧ p.2.1 = k <;> simp [correctTimes, List.filter_cons, h]

lemma runPresses_bestTime (k : Char) :
    ∀ (ps : List (Char × Char × Nat)) (g : GameState),
      ((runPresses g ps).stats.perKey k).bestTime =
        (correctTimes k ps).foldl updMin ((g.stats.perKey k).bestTime)
  | [], _ => rfl
  | p :: ps, g => by
    obtain ⟨c, pr, t⟩ := p
    have hstep : runPresses g ((c, pr, t) :: ps) =
        runPresses (scoredPress g (c, pr, t)) ps := rfl
    rw [hstep, runPresses_bestTime k ps (scoredPress g (c, pr, t)), correctTimes_cons]
    by_cases hc : c = k
    · subst hc
      by_cases hpr : pr = c
      · subst hpr
        rw [if_pos ⟨rfl, rfl⟩, List.foldl_cons, scoredPress_best_correct]
      · rw [if_neg (by simp [hpr]), scoredPress_best_wrong g c pr t hpr]
    · rw [if_neg (by simp [hc]), scoredPress_perKey_other g (c, pr, t) k hc]

lemma runPresses_worstTime (k : Char) :
    ∀ (ps : List (Char × Char × Nat)) (g : GameState),
      ((runPresses g ps).stats.perKey k).worstTime =
        (correctTimes k ps).foldl updMax ((g.stats.perKey k).worstTime)
  | [], _ => rfl
  | p :: ps, g => by
    obtain ⟨c, pr, t⟩ := p
    have hstep : runPresses g ((c, pr, t) :: ps) =
        runPresses (scoredPress g (c, pr, t)) ps := rfl
    rw [hstep, runPresses_worstTime k ps (scoredPress g (c, pr, t)), correctTimes_cons]
    by_cases hc : c = k
    · subst hc
      by_cases hpr : pr = c
      · subst hpr
        rw [if_pos ⟨rfl, rfl⟩, List.foldl_cons, scoredPress_worst_correct]
      · rw [if_neg (by simp [hpr]), scoredPress_worst_wrong g c pr t hpr]
    · rw [if_neg (by simp [hc]), scoredPress_perKey_other g (c, pr, t) k hc]

lemma foldl_updMin_some (ts : List Nat) : ∀ b : Nat,
    ∃ c, ts.foldl updMin (some b) = some c ∧ (c = b ∨ c ∈ ts) ∧ c ≤ b ∧
      ∀ t ∈ ts, c ≤ t := by
  induction ts with
  | nil => exact fun b => ⟨b, rfl, Or.inl rfl, le_rfl, by simp⟩
  | cons t ts ih =>
    intro b
    obtain ⟨c, hc, hmem, hcb, hbound⟩ := ih (if t < b then t else b)
    have hb'b : (if t < b then t else b) ≤ b := by split <;> omega
    have hb't : (if t < b then t else b) ≤ t := by split <;> omega
    have hupd : updMin (some b) t = some (if t < b then t else b) := by
      by_cases h : t < b <;> simp [updMin, h]
    refine ⟨c, ?_, ?_, le_trans hcb hb'b, ?_⟩
    · rw [List.foldl_cons, hupd]; exact hc
    · rcases hmem with rfl | h
      · by_cases htb : t < b
        · rw [if_pos htb]; exact Or.inr (List.mem_cons_self t ts)
        · rw [if_neg htb]; exact Or.inl rfl
      · exact Or.inr (List.mem_cons_of_mem t h)
    · intro t' ht'
      rcases List.mem_cons.mp ht' with rfl | h
      · exact le_trans hcb hb't
      · exact hbound t' h

lemma foldl_updMax_some (ts : List Nat) : ∀ b : Nat,
    ∃ c, ts.foldl updMax (some b) = some c ∧ (c = b ∨ c ∈ ts) ∧ b ≤ c ∧
      ∀ t ∈ ts, t ≤ c := by
  induction ts with
  | nil => exact fun b => ⟨b, rfl, Or.inl rfl, le_rfl, by simp⟩
  | cons t ts ih =>
    intro b
    obtain ⟨c, hc, hmem, hcb, hbound⟩ := ih (if t > b then t else b)
    have hb'b : b ≤ (if t > b then t else b) := by split <;> omega
    have hb't : t ≤ (if t > b then t else b) := by split <;> omega
    have hupd : updMax (some b) t = some (if t > b then t else b) := by
      by_cases h : t > b <;> simp [updMax, h]
    refine ⟨c, ?_, ?_, le_trans hb'b hcb, ?_⟩
    · rw [List.foldl_cons, hupd]; exact hc
    · rcases hmem with rfl | h
      · by_cases htb : t > b
        · rw [if_pos htb]; exact Or.inr (List.mem_cons_self t ts)
        · rw [if_neg htb]; exact Or.inl rfl
      · exact Or.inr (List.mem_cons_of_mem t h)
    · intro t' ht'
      rcases List.mem_cons.mp ht' with rfl | h
      · exact le_trans hb't hcb
      · exact hbound t' h

lemma foldl_updMin_char (ts : List Nat) :
    (ts.foldl updMin none = none ↔ ts = []) ∧
    ∀ c, ts.foldl updMin none = some c → c ∈ ts ∧ ∀ t ∈ ts, c ≤ t := by
  cases ts with
  | nil => simp
  | cons t ts =>
    have h0 : (t :: ts).foldl updMin none = ts.foldl updMin (some t) := rfl
    obtain ⟨c, hc, hmem, hcb, hbound⟩ := foldl_updMin_some ts t
    refine ⟨by rw [h0, hc]; simp, ?_⟩
    intro c' hc'
    rw [h0, hc, Option.some.injEq] at hc'
    subst hc'
    refine ⟨?_, ?_⟩
    · rcases hmem with rfl | h
      · exact List.mem_cons_self _ _
      · exact List.mem_cons_of_mem _ h
    · intro t' ht'
      rcases List.mem_cons.mp ht' with rfl | h
      · exact hcb
      · exact hbound t' h

lemma foldl_updMax_char (ts : List Nat) :
    (ts.foldl updMax none = none ↔ ts = []) ∧
    ∀ c, ts.foldl updMax none = some c → c ∈ ts ∧ ∀ t ∈ ts, t ≤ c := by
  cases ts with
  | nil => simp
  | cons t ts =>
    have h0 : (t :: ts).foldl updMax none = ts.foldl updMax (some t) := rfl
    obtain ⟨c, hc, hmem, hcb, hbound⟩ := foldl_updMax_some ts t
    refine ⟨by rw [h0, hc]; simp, ?_⟩
    intro c' hc'
    rw [h0, hc, Option.some.injEq] at hc'
    subst hc'
    refine ⟨?_, ?_⟩
    · rcases hmem with rfl | h
      · exact List.mem_cons_self _ _
      · exact List.mem_cons_of_mem _ h
    · intro t' ht'
      rcases List.mem_cons.mp ht' with rfl | h
      · exact hcb
      · exact hbound t' h

/-- C7: after any driven sequence of scored presses from the fresh game,
a key's `bestTime` is exactly the minimum and its `worstTime` exactly the
maximum of the reaction times of that key's correct presses — both `null`
precisely when it has no correct press — and `bestTime ≤ worstTime`
whenever both are present. -/
theorem bestWorst_minmax_spec (ps : List (Char × Char × Nat)) (k : Char) :
    (((runPresses initGame ps).stats.perKey k).bestTime = none ↔
      correctTimes k ps = []) ∧
    (((runPresses initGame ps).stats.perKey k).worstTime = none ↔
      correctTimes k ps = []) ∧
    (∀ b, ((runPresses initGame ps).stats.perKey k).bestTime = some b →
      b ∈ correctTimes k ps ∧ ∀ t ∈ correctTimes k ps, b ≤ t) ∧
    (∀ w, ((runPresses initGame ps).stats.perKey k).worstTime = some w →
      w ∈ correctTimes k ps ∧ ∀ t ∈ correctTimes k ps, t ≤ w) ∧
    (∀ b w, ((runPresses initGame ps).stats.perKey k).bestTime = some b →
      ((runPresses initGame ps).stats.perKey k).worstTime = some w → b ≤ w) := by
  have hbest := runPresses_bestTime k ps initGame
  have hworst := runPresses_worstTime k ps initGame
  have hib : (initGame.stats.perKey k).bestTime = none := rfl
  have hiw : (initGame.stats.perKey k).worstTime = none := rfl
  rw [hib] at hbest
  rw [hiw] at hworst
  obtain ⟨hminN, hminS⟩ := foldl_updMin_char (correctTimes k ps)
  obtain ⟨hmaxN, hmaxS⟩ := foldl_updMax_char (correctTimes k ps)
  refine ⟨by rw [hbest]; exact hminN, by rw [hworst]; exact hmaxN, ?_, ?_, ?_⟩
  · intro b hb
    exact hminS b (hbest ▸ hb)
  · intro w hw
    exact hmaxS w (hworst ▸ hw)
  · intro b w hb hw
    have h1 := hminS b (hbest ▸ hb)
    have h2 := hmaxS w (hworst ▸ hw)
    exact h1.2 w h2.1

/-- The three correct `q` presses of the spec's min/max example. -/
def threeHits : List (Char × Char × Nat) :=
  [('q', 'q', 120), ('q', 'q', 80), ('q', 'q', 200)]

/-- Concrete instance of C7: reaction times `[120, 80, 200]` on `q` give
`bestTime = 80` (the minimum) and `worstTime = 200` (the maximum). -/
theorem bestWorst_minmax_spec_witness :
    (80 ∈ correctTimes 'q' threeHits ∧ ∀ t ∈ correctTimes 'q' threeHits, 80 ≤ t) ∧
    (200 ∈ correctTimes 'q' threeHits ∧ ∀ t ∈ correctTimes 'q' threeHits, t ≤ 200) :=
  ⟨(bestWorst_minmax_spec threeHits 'q').2.2.1 80 (by decide),
   (bestWorst_minmax_spec threeHits 'q').2.2.2.1 200 (by decide)⟩

lemma parseKeyStat_encode (s : KeyStat) :
    parseKeyStat (encodeKeyStatFields s) = s := by
  obtain ⟨a, su, tt, e, b, w⟩ := s
  cases b <;> cases w <;> rfl

lemma loadStats_none_eq_fresh : loadStats none = freshStats := by
  show StatsStore.mk _ _ = StatsStore.mk _ _
  congr 1
  funext k
  by_cases hk : k ∈ keys <;> simp [hk]

/-- C8: `save()` followed by `load()` reproduces the store exactly — the
`gamesPlayed` meta counter and every tracked key's six fields, null
extreme times included — while a missing or unparseable stats file loads
as the all-zero default store (the program keeps running, lines 20-25). -/
theorem persistence_roundtrip_spec (st : StatsStore) :
    (loadStats (some (saveStats st))).gamesPlayed = st.gamesPlayed ∧
    (∀ k ∈ keys, (loadStats (some (saveStats st))).perKey k = st.perKey k) ∧
    loadStats none = freshStats := by
  refine ⟨rfl, ?_, loadStats_none_eq_fresh⟩
  intro k hk
  fin_cases hk <;> exact parseKeyStat_encode _

/-- Concrete instance of C8: the sample store's `q` record survives the
round trip. -/
theorem persistence_roundtrip_spec_witness :
    (loadStats (some (saveStats accStore))).perKey 'q' = accStore.perKey 'q' :=
  (persistence_roundtrip_spec accStore).2.1 'q' (by decide)

lemma stripAnsi_append (a b : List Tok) :
    stripAnsi (a ++ b) = stripAnsi a ++ stripAnsi b :=
  List.filterMap_append a b _

lemma stripAnsi_takeWhileEsc (s : List Tok) :
    stripAnsi (s.takeWhile Tok.isEsc) = [] := by
  induction s with
  | nil => rfl
  | cons t s ih =>
    cases t with
    | ch c => rfl
    | esc p => simpa [List.takeWhile_cons, Tok.isEsc, stripAnsi] using ih

lemma stripAnsi_map_ch (l : List Char) : stripAnsi (l.map Tok.ch) = l := by
  induction l with
  | nil => rfl
  | cons c l ih => simpa [stripAnsi] using ih

/-- C9: a styled line with 15 printable characters truncated into a
10-column budget becomes its leading run of style escapes, the first 9
printable characters, and one ellipsis — printable width exactly 10 —
while any line whose printable width fits the budget is returned
unchanged. -/
theorem truncate_spec :
    (∀ s : List Tok, (stripAnsi s).length = 15 →
      truncateAnsiPreserve s 10 =
        s.takeWhile Tok.isEsc ++ ((stripAnsi s).take 9).map Tok.ch ++ [Tok.ch '…'] ∧
      stripAnsi (truncateAnsiPreserve s 10) = (stripAnsi s).take 9 ++ ['…'] ∧
      (stripAnsi (truncateAnsiPreserve s 10)).length = 10) ∧
    (∀ (s : List Tok) (w : Nat), (stripAnsi s).length ≤ w →
      truncateAnsiPreserve s w = s) := by
  constructor
  · intro s h15
    have hgt : ¬ (stripAnsi s).length ≤ 10 := by omega
    have heq : truncateAnsiPreserve s 10 =
        s.takeWhile Tok.isEsc ++ ((stripAnsi s).take 9).map Tok.ch ++ [Tok.ch '…'] := by
      unfold truncateAnsiPreserve
      rw [if_neg hgt]
    have hstrip : stripAnsi (truncateAnsiPreserve s 10) = (stripAnsi s).take 9 ++ ['…'] := by
      rw [heq, stripAnsi_append, stripAnsi_append, stripAnsi_takeWhileEsc,
        stripAnsi_map_ch]
      rfl
    refine ⟨heq, hstrip, ?_⟩
    rw [hstrip]
    simp [List.length_take, h15]
  · intro s w hle
    unfold truncateAnsiPreserve
    rw [if_pos hle]

/-- A sample styled line: one leading style escape and the 15 printable
characters `a`–`o`. -/
def demoLine : List Tok :=
  Tok.esc "1;32" ::
    (['a', 'b', 'c', 'd', 'e', 'f', 'g', 'h', 'i', 'j', 'k', 'l', 'm', 'n', 'o'].map Tok.ch)

/-- Concrete instance of C9: truncating `demoLine` to 10 columns keeps the
style escape, the first 9 printable characters, and an ellipsis. -/
theorem truncate_spec_witness :
    truncateAnsiPreserve demoLine 10 =
      demoLine.takeWhile Tok.isEsc ++ ((stripAnsi demoLine).take 9).map Tok.ch ++
        [Tok.ch '…'] ∧
    stripAnsi (truncateAnsiPreserve demoLine 10) = (stripAnsi demoLine).take 9 ++ ['…'] ∧
    (stripAnsi (truncateAnsiPreserve demoLine 10)).length = 10 :=
  truncate_spec.1 demoLine (by decide)

end FpsTrainer
